import Mathlib

/-!
Shallow embedding of `wyzechunk.py`: a pipeline that discovers one-minute
video fragments recorded by a camera under a directory tree, recovers each
fragment's timestamp from its path components, sorts and groups the
fragments into sessions separated by gaps of at least 90 seconds, and
renders each session to a single output file via an external concatenation
tool, writing through a temporary file and skipping sessions whose output
already exists.

Filesystem state is modelled as the list of existing paths; the external
tool is modelled by its observable behaviour (exit status, and whether it
wrote its temporary output file before exiting).
-/

/-! ## Timestamps (model of `datetime.datetime` at the precision used) -/

structure Datetime where
  year : Nat
  month : Nat
  day : Nat
  hour : Nat
  minute : Nat
  second : Nat
deriving DecidableEq, Repr, Inhabited

def isLeapYear (y : Nat) : Bool := (y % 4 == 0 && y % 100 != 0) || y % 400 == 0

def daysInMonth (y m : Nat) : Nat :=
  if m = 2 then (if isLeapYear y then 29 else 28)
  else if m = 4 ∨ m = 6 ∨ m = 9 ∨ m = 11 then 30
  else 31

/-- Model of `datetime.datetime(year, month, day, hour, minute)`: validates
the ranges Python's constructor enforces (raising `ValueError`, here `none`,
when out of range) and sets seconds to zero. -/
def datetimeMk (y mo d h mi : Int) : Option Datetime :=
  if 1 ≤ y ∧ y ≤ 9999 ∧ 1 ≤ mo ∧ mo ≤ 12 ∧ 1 ≤ d ∧ d ≤ daysInMonth y.toNat mo.toNat
      ∧ 0 ≤ h ∧ h ≤ 23 ∧ 0 ≤ mi ∧ mi ≤ 59 then
    some ⟨y.toNat, mo.toNat, d.toNat, h.toNat, mi.toNat, 0⟩
  else none

def daysBeforeMonth (y m : Nat) : Nat :=
  (List.range (m - 1)).foldl (fun a i => a + daysInMonth y (i + 1)) 0

def daysBeforeYear (y : Nat) : Nat :=
  365 * (y - 1) + (y - 1) / 4 + (y - 1) / 400 - (y - 1) / 100

def toOrdinal (t : Datetime) : Nat :=
  daysBeforeYear t.year + daysBeforeMonth t.year t.month + (t.day - 1)

/-- Seconds since the proleptic-Gregorian epoch; `datetime` subtraction and
comparison are chronological, i.e. they agree with this count. -/
def toSeconds (t : Datetime) : Nat :=
  (toOrdinal t * 24 + t.hour) * 3600 + t.minute * 60 + t.second

/-- `b - a` as a signed number of seconds (model of `timedelta`). -/
def deltaSecs (a b : Datetime) : Int :=
  (toSeconds b : Int) - (toSeconds a : Int)

/-! ## Model of Python's `int(str)` on ASCII strings -/

def isDig (c : Char) : Bool := '0' ≤ c && c ≤ '9'

def digVal (c : Char) : Nat := c.toNat - '0'.toNat

/-- ASCII whitespace stripped by Python before parsing an integer. -/
def isPySpace (c : Char) : Bool :=
  c = ' ' || c = '\t' || c = '\n' || c = '\r' || c = '\x0b' || c = '\x0c'

def pyStripChars (cs : List Char) : List Char :=
  ((cs.dropWhile isPySpace).reverse.dropWhile isPySpace).reverse

/-- Valid digit run for Python `int`: nonempty, starts and ends with a
digit, only digits and underscores, and no two consecutive underscores
(i.e. single underscores between digits). -/
def pyDigitsOk (cs : List Char) : Bool :=
  !cs.isEmpty && cs.all (fun c => isDig c || c = '_') &&
  (match cs.head? with | some c => isDig c | none => false) &&
  (match cs.getLast? with | some c => isDig c | none => false) &&
  (cs.zip cs.tail).all (fun p => !(p.1 = '_' && p.2 = '_'))

def digitsNatVal (cs : List Char) : Nat :=
  cs.foldl (fun a c => if c = '_' then a else a * 10 + digVal c) 0

/-- Model of Python's built-in `int(str)` on ASCII strings: strips
surrounding whitespace, allows one leading sign, then a digit run with
optional single underscores between digits.  (Python additionally accepts
non-ASCII digits and whitespace, which cannot occur in these paths.) -/
def pyInt (s : String) : Option Int :=
  match pyStripChars s.data with
  | '+' :: rest => if pyDigitsOk rest then some (Int.ofNat (digitsNatVal rest)) else none
  | '-' :: rest => if pyDigitsOk rest then some (-(Int.ofNat (digitsNatVal rest))) else none
  | cs => if pyDigitsOk cs then some (Int.ofNat (digitsNatVal cs)) else none

/-! ## Recording Locator (`combine` lines 68-79) -/

/-- Python string slice `s[a:b]` (with `a ≤ b`) on ASCII strings. -/
def pySlice (s : String) (a b : Nat) : String := ((s.data.drop a).take (b - a)).asString

/-- Timestamp derivation from the three trailing path components
(`parts[-3]`, `parts[-2]`, `parts[-1]`), mirroring `combine` lines 73-78:
`int(parts[-3][0:4])`, `int(parts[-3][4:6])`, `int(parts[-3][6:8])`,
`int(parts[-2])`, `int(parts[-1][: -len(".mp4")])`, then the `datetime`
constructor. -/
def parseTimestamp (gp par leaf : String) : Option Datetime := do
  let y ← pyInt (pySlice gp 0 4)
  let mo ← pyInt (pySlice gp 4 6)
  let d ← pyInt (pySlice gp 6 8)
  let h ← pyInt par
  let mi ← pyInt ((leaf.data.take (leaf.data.length - 4)).asString)
  datetimeMk y mo d h mi

/-- One captured fragment: its path (as `Path.parts`) and derived
timestamp. -/
structure Recording where
  path : List String
  timestamp : Datetime
deriving DecidableEq, Repr, Inhabited

/-- The three trailing components of a path, fed to `parseTimestamp`; a
path with fewer than three components raises (`IndexError`), modelled as
`none`. -/
def partsTimestamp (parts : List String) : Option Datetime :=
  match parts.reverse with
  | leaf :: par :: gp :: _ => parseTimestamp gp par leaf
  | _ => none

/-- The discovery-and-parse loop of `combine` (lines 72-79): one
`Recording` per discovered path, in discovery order; a parse failure
raises an uncaught exception, aborting the whole run at the offending
path. -/
def locate : List (List String) → Except (List String) (List Recording)
  | [] => .ok []
  | p :: rest =>
    match partsTimestamp p with
    | none => .error p
    | some t =>
      match locate rest with
      | .error q => .error q
      | .ok rs => .ok (⟨p, t⟩ :: rs)

/-! ## Session Grouper (`combine` lines 80-96) -/

/-- The sort key order of `sorted(recordings, key=lambda r: r.timestamp)`:
`datetime` comparison is chronological. -/
def rle (a b : Recording) : Prop := toSeconds a.timestamp ≤ toSeconds b.timestamp

instance : DecidableRel rle := fun _ _ => Nat.decLe _ _

instance : IsTotal Recording rle := ⟨fun _ _ => Nat.le_total _ _⟩

instance : IsTrans Recording rle := ⟨fun _ _ _ h1 h2 => Nat.le_trans h1 h2⟩

/-- `sorted(recordings, key=lambda r: r.timestamp)`.  Python's sort is
stable; insertion sort with this total preorder is also stable, and any two
stable sorts of a list agree, so this is the same function. -/
def sortRecordings (l : List Recording) : List Recording := List.insertionSort rle l

/-- `TIMEDELTA_THRESHOLD = timedelta(minutes=1, seconds=30)`, in seconds. -/
def TIMEDELTA_THRESHOLD : Int := 90

/-- The grouping loop of `combine` (lines 85-96): `cur` is the running
`grouped_recordings` accumulator and `last` its last appended element
(`grouped_recordings[-1]`).  Groups are returned in the order the code
renders them (each closed group at a boundary, then the final group). -/
def groupLoop (cur : List Recording) (last : Recording) :
    List Recording → List (List Recording)
  | [] => [cur]
  | r :: rest =>
    if deltaSecs last.timestamp r.timestamp < TIMEDELTA_THRESHOLD then
      groupLoop (cur ++ [r]) r rest
    else
      cur :: groupLoop [r] r rest

def groupRecordings : List Recording → List (List Recording)
  | [] => []
  | r :: rest => groupLoop [r] r rest

/-- The sessions `combine` renders, in order: sort, then group. -/
def sessionsOf (recs : List Recording) : List (List Recording) :=
  groupRecordings (sortRecordings recs)

/-! ## Output naming (`render_group` lines 20-27) -/

def dcharAux : Nat → Char
  | 0 => '0'
  | 1 => '1'
  | 2 => '2'
  | 3 => '3'
  | 4 => '4'
  | 5 => '5'
  | 6 => '6'
  | 7 => '7'
  | 8 => '8'
  | _ => '9'

def dchar (d : Nat) : Char := dcharAux (d % 10)

def pad2 (n : Nat) : String := ⟨[dchar (n / 10), dchar n]⟩

def pad4 (n : Nat) : String := ⟨[dchar (n / 1000), dchar (n / 100), dchar (n / 10), dchar n]⟩

/-- `t.strftime("%Y%m%d_%H%M")`, zero-padded, for the ranges `datetimeMk`
admits (year at most 9999). -/
def strfName (t : Datetime) : String :=
  pad4 t.year ++ pad2 t.month ++ pad2 t.day ++ "_" ++ pad2 t.hour ++ pad2 t.minute

/-- `recordings[0]`; the code only calls `render_group` on non-empty
lists, so the default is never reached there. -/
def sessionStart (s : List Recording) : Recording := s.headD default

/-- `recordings[-1]`. -/
def sessionEnd (s : List Recording) : Recording := s.getLastD default

/-- `f"{start_name}_to_{end_name}.mkv"`. -/
def outputName (s : List Recording) : String :=
  strfName (sessionStart s).timestamp ++ "_to_" ++ strfName (sessionEnd s).timestamp ++ ".mkv"

/-- `f"{start_name}_to_{end_name}.tmp.mkv"`. -/
def tmpOutputName (s : List Recording) : String :=
  strfName (sessionStart s).timestamp ++ "_to_" ++ strfName (sessionEnd s).timestamp ++ ".tmp.mkv"

/-! ## Manifest handed to the external tool (`render_group` line 33) -/

/-- `f"file '{r.path.resolve()}'"`, with path resolution (`Path.resolve`,
which makes the path absolute) abstracted as `res`. -/
def manifestEntry (res : List String → String) (r : Recording) : String :=
  "file '" ++ res r.path ++ "'"

/-- `"\n".join`. -/
def joinNl : List String → String
  | [] => ""
  | [l] => l
  | l :: ls => l ++ "\n" ++ joinNl ls

/-- Line 33: `"\n".join(f"file '{r.path.resolve()}'" for r in recordings)`. -/
def manifestContent (res : List String → String) (s : List Recording) : String :=
  joinNl (s.map (manifestEntry res))

/-! ## Filesystem model and the Renderer (`render_group` lines 19-54) -/

/-- Observable behaviour of one external-tool invocation: its exit status,
and whether its temporary output file existed when it exited (a
successful concatenation always writes it; a failing one may have
partially written it). -/
structure ToolBehavior where
  exitOk : Bool
  wroteTmp : Bool
deriving DecidableEq, Repr

/-- The `NamedTemporaryFile` holding the manifest; it lives in the system
temporary directory, not in the output directory. -/
def manifestTmpPath : String := "/tmp/ffconcat-manifest"

/-- Remove a path from the filesystem (set semantics). -/
def fsRemove (p : String) (fs : List String) : List String := fs.filter (fun q => q ≠ p)

/-- `(output_dir / output_name).resolve()`, with resolution modelled as
plain joining. -/
def outPathOf (output_dir : String) (s : List Recording) : String :=
  output_dir ++ "/" ++ outputName s

/-- `(output_dir / tmp_output_name).resolve()`. -/
def tmpPathOf (output_dir : String) (s : List Recording) : String :=
  output_dir ++ "/" ++ tmpOutputName s

structure RenderOut where
  fs : List String
  invoked : Bool
  ok : Bool
deriving DecidableEq, Repr

/-- `render_group` (lines 19-54) acting on the filesystem model, which is
the list of existing paths.  Path resolution of `output_dir / name` is
modelled as plain joining.  Steps: skip if the final output exists; write
the manifest temp file; run the tool (`check=True`: non-zero exit raises
`CalledProcessError` after the `with` block removes the manifest); on
success move the temporary output onto the final path. -/
def render_group (b : ToolBehavior) (recordings : List Recording) (output_dir : String)
    (fs : List String) : RenderOut :=
  let output_path := outPathOf output_dir recordings
  let tmp_output_path := tmpPathOf output_dir recordings
  if output_path ∈ fs then
    ⟨fs, false, true⟩
  else
    let fs1 := List.insert manifestTmpPath fs
    let fs2 := if b.exitOk || b.wroteTmp then List.insert tmp_output_path fs1 else fs1
    if b.exitOk then
      ⟨List.insert output_path (fsRemove tmp_output_path (fsRemove manifestTmpPath fs2)),
        true, true⟩
    else
      ⟨fsRemove manifestTmpPath fs2, true, false⟩

structure RunOut where
  fs : List String
  calls : Nat
  ok : Bool
deriving DecidableEq, Repr

/-- The sequence of `render_group` calls `combine` makes: one per session,
in emission order, stopping at the first failure (the exception
propagates).  `env n` is the behaviour of the `n`-th tool invocation;
`calls` counts invocations (skipped sessions invoke nothing). -/
def runSessions (env : Nat → ToolBehavior) :
    List (List Recording) → String → List String → Nat → RunOut
  | [], _, fs, n => ⟨fs, n, true⟩
  | s :: rest, output_dir, fs, n =>
    let r := render_group (env n) s output_dir fs
    let n' := n + (if r.invoked then 1 else 0)
    if r.ok then runSessions env rest output_dir r.fs n'
    else ⟨r.fs, n', false⟩

instance {ε α : Type} [DecidableEq ε] [DecidableEq α] : DecidableEq (Except ε α) := fun x y =>
  match x, y with
  | .error e, .error f =>
    if h : e = f then isTrue (by rw [h]) else isFalse (by simp [h])
  | .ok a, .ok b =>
    if h : a = b then isTrue (by rw [h]) else isFalse (by simp [h])
  | .error _, .ok _ => isFalse (by simp)
  | .ok _, .error _ => isFalse (by simp)

/-- `combine` (lines 57-96) from the point where its configuration checks
have passed: create the output directory if missing
(`output_dir.mkdir(exist_ok=True)`), parse every discovered fragment path
(the `rglob` result, given here as `mp4_paths`), sort, group, and render
each group in order.  A parse failure aborts the run; the error carries the
offending path and the filesystem at that point (only the `mkdir` has
happened). -/
def combine (env : Nat → ToolBehavior) (mp4_paths : List (List String))
    (output_dir : String) (fs : List String) :
    Except (List String × List String) RunOut :=
  let fs0 := List.insert output_dir fs
  match locate mp4_paths with
  | .error p => .error (p, fs0)
  | .ok recordings =>
    if recordings = [] then .ok ⟨fs0, 0, true⟩
    else .ok (runSessions env (sessionsOf recordings) output_dir fs0 0)

/-! ## Predicates and helpers used in the statements -/

/-- The within-session invariant: adjacent recordings are strictly less
than the threshold apart. -/
def adjacentOk (a b : Recording) : Prop :=
  deltaSecs a.timestamp b.timestamp < TIMEDELTA_THRESHOLD

/-- The boundary invariant between two consecutive sessions: the gap from
the last recording of the earlier session to the first recording of the
later one is at least the threshold. -/
def boundaryOk (s t : List Recording) : Prop :=
  ∀ a b, s.getLast? = some a → t.head? = some b →
    TIMEDELTA_THRESHOLD ≤ deltaSecs a.timestamp b.timestamp

/-- Time-disjointness of sessions: every recording of `s` is strictly
earlier than every recording of `t`. -/
def sessionBefore (s t : List Recording) : Prop :=
  ∀ a ∈ s, ∀ b ∈ t, toSeconds a.timestamp < toSeconds b.timestamp

/-- Formalisation of the spec's words for the expected path shape (used
only to compare the claim with the code): the grandparent component starts
with eight digits (`YYYYMMDD`), the parent is exactly two digits, and the
file stem (name minus the four-character extension) is exactly two
digits. -/
def specExpectedShape (gp par leaf : String) : Prop :=
  (gp.data.take 8).length = 8 ∧ (∀ c ∈ gp.data.take 8, isDig c) ∧
  par.data.length = 2 ∧ (∀ c ∈ par.data, isDig c) ∧
  (leaf.data.take (leaf.data.length - 4)).length = 2 ∧
  (∀ c ∈ leaf.data.take (leaf.data.length - 4), isDig c)

instance (gp par leaf : String) : Decidable (specExpectedShape gp par leaf) := by
  unfold specExpectedShape
  exact inferInstance

/-- Split a character list at newline characters (the lines of a text). -/
def splitNl : List Char → List (List Char)
  | [] => [[]]
  | c :: cs =>
    match splitNl cs with
    | [] => [[]]
    | h :: t => if c = '\n' then [] :: h :: t else (c :: h) :: t

/-- An external tool that always succeeds (and hence writes its output). -/
def allOkEnv : Nat → ToolBehavior := fun _ => ⟨true, true⟩

/-- The spec's first example session: fragments at 10:00, 10:01, 10:02. -/
def exampleSessionA : List Recording :=
  [⟨["r", "20240101", "10", "00.mp4"], ⟨2024, 1, 1, 10, 0, 0⟩⟩,
   ⟨["r", "20240101", "10", "01.mp4"], ⟨2024, 1, 1, 10, 1, 0⟩⟩,
   ⟨["r", "20240101", "10", "02.mp4"], ⟨2024, 1, 1, 10, 2, 0⟩⟩]

/-- The spec's second example session: fragments at 10:05, 10:06. -/
def exampleSessionB : List Recording :=
  [⟨["r", "20240101", "10", "05.mp4"], ⟨2024, 1, 1, 10, 5, 0⟩⟩,
   ⟨["r", "20240101", "10", "06.mp4"], ⟨2024, 1, 1, 10, 6, 0⟩⟩]

example : pyInt "07" = some 7 := by decide
example : pyInt "ab" = none := by decide
example : pyInt " 7" = some 7 := by decide
example : pyInt "-12" = some (-12) := by decide
example : pyInt "1_0" = some 10 := by decide
example : pyInt "1__0" = none := by decide
example : parseTimestamp "20240101" "10" "00.mp4" = some ⟨2024, 1, 1, 10, 0, 0⟩ := by decide
example : parseTimestamp "20240101" "5" "07.mp4" = some ⟨2024, 1, 1, 5, 7, 0⟩ := by decide
example : parseTimestamp "2024010x" "10" "00.mp4" = none := by decide
example : parseTimestamp "20240101" "99" "00.mp4" = none := by decide

example :
    sessionsOf
      [⟨["r", "20240101", "10", "00.mp4"], ⟨2024, 1, 1, 10, 0, 0⟩⟩,
       ⟨["r", "20240101", "10", "01.mp4"], ⟨2024, 1, 1, 10, 1, 0⟩⟩,
       ⟨["r", "20240101", "10", "02.mp4"], ⟨2024, 1, 1, 10, 2, 0⟩⟩,
       ⟨["r", "20240101", "10", "05.mp4"], ⟨2024, 1, 1, 10, 5, 0⟩⟩,
       ⟨["r", "20240101", "10", "06.mp4"], ⟨2024, 1, 1, 10, 6, 0⟩⟩] =
      [[⟨["r", "20240101", "10", "00.mp4"], ⟨2024, 1, 1, 10, 0, 0⟩⟩,
        ⟨["r", "20240101", "10", "01.mp4"], ⟨2024, 1, 1, 10, 1, 0⟩⟩,
        ⟨["r", "20240101", "10", "02.mp4"], ⟨2024, 1, 1, 10, 2, 0⟩⟩],
       [⟨["r", "20240101", "10", "05.mp4"], ⟨2024, 1, 1, 10, 5, 0⟩⟩,
        ⟨["r", "20240101", "10", "06.mp4"], ⟨2024, 1, 1, 10, 6, 0⟩⟩]] := by decide

example :
    outputName [⟨["r", "20240101", "10", "00.mp4"], ⟨2024, 1, 1, 10, 0, 0⟩⟩,
                ⟨["r", "20240101", "10", "02.mp4"], ⟨2024, 1, 1, 10, 2, 0⟩⟩] =
      "20240101_1000_to_20240101_1002.mkv" := by decide

example :
    combine allOkEnv [["r", "20240101", "10", "00.mp4"]] "out" [] =
      .ok ⟨["out/20240101_1000_to_20240101_1000.mkv", "out"], 1, true⟩ := by decide

/-! ## Grouping lemmas -/

lemma groupLoop_flatten : ∀ (l cur : List Recording) (last : Recording),
    (groupLoop cur last l).flatten = cur ++ l
  | [], cur, last => by simp [groupLoop]
  | r :: rest, cur, last => by
    by_cases h : deltaSecs last.timestamp r.timestamp < TIMEDELTA_THRESHOLD
    · simp [groupLoop, h, groupLoop_flatten rest (cur ++ [r]) r]
    · simp [groupLoop, h, groupLoop_flatten rest [r] r]

lemma groupLoop_ne_nil : ∀ (l cur : List Recording) (last : Recording), cur ≠ [] →
    ∀ g ∈ groupLoop cur last l, g ≠ []
  | [], cur, last, hcur, g, hg => by
    simp [groupLoop] at hg
    simpa [hg] using hcur
  | r :: rest, cur, last, hcur, g, hg => by
    by_cases h : deltaSecs last.timestamp r.timestamp < TIMEDELTA_THRESHOLD
    · simp only [groupLoop, if_pos h] at hg
      exact groupLoop_ne_nil rest (cur ++ [r]) r (by simp) g hg
    · simp only [groupLoop, if_neg h] at hg
      rcases List.mem_cons.mp hg with rfl | hg'
      · exact hcur
      · exact groupLoop_ne_nil rest [r] r (by simp) g hg'

lemma groupLoop_head_struct : ∀ (l cur : List Recording) (last : Recording),
    ∃ t g, groupLoop cur last l = (cur ++ t) :: g
  | [], cur, last => ⟨[], [], by simp [groupLoop]⟩
  | r :: rest, cur, last => by
    by_cases h : deltaSecs last.timestamp r.timestamp < TIMEDELTA_THRESHOLD
    · obtain ⟨t, g, hg⟩ := groupLoop_head_struct rest (cur ++ [r]) r
      exact ⟨[r] ++ t, g, by simp only [groupLoop, if_pos h]; simpa using hg⟩
    · exact ⟨[], groupLoop [r] r rest, by simp [groupLoop, if_neg h]⟩

lemma groupLoop_chain : ∀ (l cur : List Recording) (last : Recording),
    cur.getLast? = some last → List.Chain' adjacentOk cur →
    ∀ g ∈ groupLoop cur last l, List.Chain' adjacentOk g
  | [], cur, _, _, hc, g, hg => by
    simp [groupLoop] at hg
    simpa [hg] using hc
  | r :: rest, cur, last, hlast, hc, g, hg => by
    by_cases h : deltaSecs last.timestamp r.timestamp < TIMEDELTA_THRESHOLD
    · simp only [groupLoop, if_pos h] at hg
      refine groupLoop_chain rest (cur ++ [r]) r (List.getLast?_concat cur) ?_ g hg
      refine List.chain'_append.mpr ⟨hc, List.chain'_singleton r, ?_⟩
      intro x hx y hy
      rw [hlast] at hx
      simp only [Option.mem_def, Option.some.injEq] at hx
      simp only [List.head?_cons, Option.mem_def, Option.some.injEq] at hy
      subst hx
      subst hy
      exact h
    · simp only [groupLoop, if_neg h] at hg
      rcases List.mem_cons.mp hg with rfl | hg'
      · exact hc
      · exact groupLoop_chain rest [r] r (by simp) (List.chain'_singleton r) g hg'

lemma groupLoop_boundary : ∀ (l cur : List Recording) (last : Recording),
    cur.getLast? = some last → List.Chain' boundaryOk (groupLoop cur last l)
  | [], cur, _, _ => by
    simp only [groupLoop]
    exact List.chain'_singleton cur
  | r :: rest, cur, last, hlast => by
    by_cases h : deltaSecs last.timestamp r.timestamp < TIMEDELTA_THRESHOLD
    · simp only [groupLoop, if_pos h]
      exact groupLoop_boundary rest (cur ++ [r]) r (List.getLast?_concat cur)
    · simp only [groupLoop, if_neg h]
      rw [List.chain'_cons']
      refine ⟨?_, groupLoop_boundary rest [r] r (by simp)⟩
      intro y hy
      obtain ⟨t, g, hgl⟩ := groupLoop_head_struct rest [r] r
      rw [hgl] at hy
      simp only [List.head?_cons, Option.mem_def, Option.some.injEq] at hy
      subst hy
      intro a b ha hb
      rw [hlast] at ha
      simp only [Option.some.injEq] at ha
      simp only [List.singleton_append, List.head?_cons, Option.some.injEq] at hb
      subst ha
      subst hb
      exact not_lt.mp h

lemma groupRecordings_flatten (l : List Recording) : (groupRecordings l).flatten = l := by
  cases l with
  | nil => rfl
  | cons r rest => simpa [groupRecordings] using groupLoop_flatten rest [r] r

lemma groupRecordings_ne_nil (l : List Recording) : ∀ g ∈ groupRecordings l, g ≠ [] := by
  cases l with
  | nil => intro g hg; simp [groupRecordings] at hg
  | cons r rest => exact groupLoop_ne_nil rest [r] r (by simp)

lemma groupRecordings_chain (l : List Recording) :
    ∀ g ∈ groupRecordings l, List.Chain' adjacentOk g := by
  cases l with
  | nil => intro g hg; simp [groupRecordings] at hg
  | cons r rest => exact groupLoop_chain rest [r] r (by simp) (List.chain'_singleton r)

lemma groupRecordings_boundary (l : List Recording) :
    List.Chain' boundaryOk (groupRecordings l) := by
  cases l with
  | nil => exact List.chain'_nil
  | cons r rest => exact groupLoop_boundary rest [r] r (by simp)

/-! ## From boundary gaps and sortedness to time-disjointness -/

lemma sorted_rel_getLast : ∀ (l : List Recording), List.Sorted rle l →
    ∀ la, l.getLast? = some la → ∀ a ∈ l, rle a la
  | [], _, la, hla, a, ha => absurd ha (List.not_mem_nil a)
  | [x], _, la, hla, a, ha => by
    simp only [List.getLast?_singleton, Option.some.injEq] at hla
    simp only [List.mem_singleton] at ha
    subst hla
    subst ha
    exact Nat.le_refl _
  | x :: y :: t, hs, la, hla, a, ha => by
    rw [List.getLast?_cons_cons] at hla
    rcases List.mem_cons.mp ha with rfl | ha'
    · have hmem : la ∈ y :: t := by
        obtain ⟨hne', heq⟩ :=
          List.mem_getLast?_eq_getLast (l := y :: t) (x := la) (by rw [hla]; rfl)
        rw [heq]
        exact List.getLast_mem hne'
      exact (List.sorted_cons.mp hs).1 la hmem
    · exact sorted_rel_getLast (y :: t) (List.sorted_cons.mp hs).2 la hla a ha'

lemma sorted_rel_head (l : List Recording) (hs : List.Sorted rle l) :
    ∀ h0, l.head? = some h0 → ∀ b ∈ l, rle h0 b := by
  cases l with
  | nil => intro h0 hh0 b hb; exact absurd hb (List.not_mem_nil b)
  | cons x t =>
    intro h0 hh0 b hb
    simp only [List.head?_cons, Option.some.injEq] at hh0
    subst hh0
    rcases List.mem_cons.mp hb with rfl | hb'
    · exact Nat.le_refl _
    · exact (List.sorted_cons.mp hs).1 b hb'

lemma chain_sessionBefore : ∀ (L : List (List Recording)), (∀ g ∈ L, g ≠ []) →
    List.Chain' boundaryOk L → List.Sorted rle L.flatten →
    List.Chain' sessionBefore L
  | [], _, _, _ => List.chain'_nil
  | [s], _, _, _ => List.chain'_singleton s
  | s :: t :: L, hne, hch, hsord => by
    rw [List.chain'_cons] at hch ⊢
    rw [List.flatten_cons] at hsord
    have hps := List.pairwise_append.mp hsord
    refine ⟨?_, chain_sessionBefore (t :: L)
      (fun g hg => hne g (List.mem_cons_of_mem s hg)) hch.2 hps.2.1⟩
    intro a ha b hb
    have hsne : s ≠ [] := hne s (by simp)
    have htne : t ≠ [] := hne t (by simp)
    have hla := List.getLast?_eq_getLast s hsne
    have hh0 := List.head?_eq_head htne
    have hbd := hch.1 (s.getLast hsne) (t.head htne) hla hh0
    have hsorted_tL := hps.2.1
    rw [List.flatten_cons] at hsorted_tL
    have h1 : rle a (s.getLast hsne) := sorted_rel_getLast s hps.1 _ hla a ha
    have h2 : rle (t.head htne) b :=
      sorted_rel_head t (List.pairwise_append.mp hsorted_tL).1 _ hh0 b hb
    simp only [rle] at h1 h2
    simp only [deltaSecs, TIMEDELTA_THRESHOLD] at hbd
    omega

lemma sessionBefore_trans_mid {a b c : List Recording} (hb : b ≠ [])
    (h1 : sessionBefore a b) (h2 : sessionBefore b c) : sessionBefore a c := by
  intro x hx y hy
  obtain ⟨m, hm⟩ := List.exists_mem_of_ne_nil b hb
  exact lt_trans (h1 x hx m hm) (h2 m hm y hy)

lemma chain_sessionBefore_head : ∀ (s : List Recording) (L : List (List Recording)),
    (∀ g ∈ L, g ≠ []) → List.Chain' sessionBefore (s :: L) → ∀ t ∈ L, sessionBefore s t
  | _, [], _, _, t, ht => absurd ht (List.not_mem_nil t)
  | s, u :: L, hne, hch, t, ht => by
    rw [List.chain'_cons] at hch
    rcases List.mem_cons.mp ht with rfl | ht'
    · exact hch.1
    · exact sessionBefore_trans_mid (hne u (by simp)) hch.1
        (chain_sessionBefore_head u L
          (fun g hg => hne g (List.mem_cons_of_mem u hg)) hch.2 t ht')

lemma chain_sessionBefore_pairwise : ∀ (L : List (List Recording)),
    (∀ g ∈ L, g ≠ []) → List.Chain' sessionBefore L → List.Pairwise sessionBefore L
  | [], _, _ => List.Pairwise.nil
  | s :: L, hne, hch => by
    refine List.Pairwise.cons
      (chain_sessionBefore_head s L
        (fun g hg => hne g (List.mem_cons_of_mem s hg)) hch) ?_
    exact chain_sessionBefore_pairwise L
      (fun g hg => hne g (List.mem_cons_of_mem s hg)) hch.tail

/-! ## Claim theorems C1 and C2 -/

/-- C1: for every input set of recordings, grouping partitions the
timestamp-sorted sequence so that within every session each adjacent pair
of recordings has timestamp difference strictly below the 90-second
threshold, and the gap across every boundary between consecutive sessions
- computed against the last recording appended to the earlier session -
is at least 90 seconds. -/
theorem combine_session_gap_invariants (recs : List Recording) :
    (∀ s ∈ sessionsOf recs, List.Chain' adjacentOk s) ∧
    List.Chain' boundaryOk (sessionsOf recs) :=
  ⟨fun s hs => groupRecordings_chain (sortRecordings recs) s hs,
   groupRecordings_boundary (sortRecordings recs)⟩

/-- C2: grouping is a total, exhaustive partition: the concatenation of the
emitted sessions is a permutation of the input (every recording in exactly
one session), every session is non-empty and internally sorted ascending
by timestamp, and sessions are pairwise time-disjoint and emitted in
ascending time order (each session lies strictly before the next). -/
theorem combine_session_partition (recs : List Recording) :
    (sessionsOf recs).flatten.Perm recs ∧
    (∀ s ∈ sessionsOf recs, s ≠ [] ∧ List.Sorted rle s) ∧
    List.Pairwise sessionBefore (sessionsOf recs) := by
  have hflat : (sessionsOf recs).flatten = sortRecordings recs :=
    groupRecordings_flatten _
  have hsordflat : List.Sorted rle (sessionsOf recs).flatten := by
    rw [hflat]
    exact List.sorted_insertionSort rle recs
  have hne := groupRecordings_ne_nil (sortRecordings recs)
  refine ⟨?_, ?_, ?_⟩
  · rw [hflat]
    exact List.perm_insertionSort rle recs
  · intro s hs
    exact ⟨hne s hs, List.Pairwise.sublist (List.sublist_flatten_of_mem hs) hsordflat⟩
  · exact chain_sessionBefore_pairwise _ hne
      (chain_sessionBefore _ hne (groupRecordings_boundary _) hsordflat)

/-! ## Path distinctness (by length) and filesystem membership -/

lemma mem_fsRemove {a p : String} {fs : List String} :
    a ∈ fsRemove p fs ↔ a ∈ fs ∧ a ≠ p := by
  simp [fsRemove]

lemma strfName_length (t : Datetime) : (strfName t).length = 13 := rfl

lemma outputName_length (s : List Recording) : (outputName s).length = 34 := rfl

lemma tmpOutputName_length (s : List Recording) : (tmpOutputName s).length = 38 := rfl

lemma manifestTmpPath_length : manifestTmpPath.length = 22 := rfl

lemma outPathOf_length (dir : String) (s : List Recording) :
    (outPathOf dir s).length = dir.length + 35 := by
  have h2 := outputName_length s
  have h1 : ("/").length = 1 := rfl
  simp [outPathOf, String.length_append, h1, h2]

lemma tmpPathOf_length (dir : String) (s : List Recording) :
    (tmpPathOf dir s).length = dir.length + 39 := by
  have h2 := tmpOutputName_length s
  have h1 : ("/").length = 1 := rfl
  simp [tmpPathOf, String.length_append, h1, h2]

lemma outPathOf_ne_tmpPathOf (dir : String) (s s' : List Recording) :
    outPathOf dir s ≠ tmpPathOf dir s' := by
  intro h
  have hlen : (outPathOf dir s).length = (tmpPathOf dir s').length := by rw [h]
  rw [outPathOf_length, tmpPathOf_length] at hlen
  omega

lemma outPathOf_ne_manifest (dir : String) (s : List Recording) :
    outPathOf dir s ≠ manifestTmpPath := by
  intro h
  have hlen : (outPathOf dir s).length = manifestTmpPath.length := by rw [h]
  rw [outPathOf_length, manifestTmpPath_length] at hlen
  omega

lemma tmpPathOf_ne_manifest (dir : String) (s : List Recording) :
    tmpPathOf dir s ≠ manifestTmpPath := by
  intro h
  have hlen : (tmpPathOf dir s).length = manifestTmpPath.length := by rw [h]
  rw [tmpPathOf_length, manifestTmpPath_length] at hlen
  omega

lemma dir_ne_outPathOf (dir : String) (s : List Recording) : dir ≠ outPathOf dir s := by
  intro h
  have hlen : dir.length = (outPathOf dir s).length := by rw [← h]
  rw [outPathOf_length] at hlen
  omega

lemma dir_ne_tmpPathOf (dir : String) (s : List Recording) : dir ≠ tmpPathOf dir s := by
  intro h
  have hlen : dir.length = (tmpPathOf dir s).length := by rw [← h]
  rw [tmpPathOf_length] at hlen
  omega

/-! ## Branch equations for the Renderer -/

lemma render_group_skip (b : ToolBehavior) (s : List Recording) (dir : String)
    (fs : List String) (h : outPathOf dir s ∈ fs) :
    render_group b s dir fs = ⟨fs, false, true⟩ := by
  simp [render_group, h]

lemma render_group_fail (b : ToolBehavior) (s : List Recording) (dir : String)
    (fs : List String) (hmem : outPathOf dir s ∉ fs) (hfail : b.exitOk = false) :
    render_group b s dir fs =
      ⟨fsRemove manifestTmpPath
          (if b.wroteTmp then
            List.insert (tmpPathOf dir s) (List.insert manifestTmpPath fs)
          else List.insert manifestTmpPath fs), true, false⟩ := by
  simp [render_group, hmem, hfail]

lemma render_group_success (b : ToolBehavior) (s : List Recording) (dir : String)
    (fs : List String) (hmem : outPathOf dir s ∉ fs) (hok : b.exitOk = true) :
    render_group b s dir fs =
      ⟨List.insert (outPathOf dir s)
          (fsRemove (tmpPathOf dir s)
            (fsRemove manifestTmpPath
              (List.insert (tmpPathOf dir s) (List.insert manifestTmpPath fs)))),
        true, true⟩ := by
  simp [render_group, hmem, hok]

/-! ## Claim theorem C3 (with counterexample) -/

/-- C3 counterexample: with a tool invocation that fails (non-zero exit)
after partially writing its temporary output, the render fails and the
partially-written temporary output file is left behind in the output
directory - a stray temp file remains. -/
theorem render_failure_stray_tmp_counterexample :
    (render_group ⟨false, true⟩
        [⟨["rec", "20240101", "10", "00.mp4"], ⟨2024, 1, 1, 10, 0, 0⟩⟩] "out" []).ok
        = false ∧
    "out/20240101_1000_to_20240101_1000.tmp.mkv" ∈
      (render_group ⟨false, true⟩
        [⟨["rec", "20240101", "10", "00.mp4"], ⟨2024, 1, 1, 10, 0, 0⟩⟩] "out" []).fs := by
  decide

/-- C3 (amended): if the external tool exits with a non-zero status, the
render operation fails, no file appears at the session's final output
path, the partially-written temporary output is not promoted, and the
manifest temporary file is cleaned up; however the temporary output
itself may remain in the output directory. -/
theorem render_failure_atomicity (b : ToolBehavior) (s : List Recording) (dir : String)
    (fs : List String) (hmem : outPathOf dir s ∉ fs) (hfail : b.exitOk = false) :
    (render_group b s dir fs).ok = false ∧
    (render_group b s dir fs).invoked = true ∧
    outPathOf dir s ∉ (render_group b s dir fs).fs ∧
    manifestTmpPath ∉ (render_group b s dir fs).fs := by
  rw [render_group_fail b s dir fs hmem hfail]
  refine ⟨rfl, rfl, ?_, ?_⟩
  · intro hmem'
    rw [mem_fsRemove] at hmem'
    by_cases hw : b.wroteTmp = true
    · rw [if_pos hw] at hmem'
      rcases List.mem_insert_iff.mp hmem'.1 with h1 | h1
      · exact outPathOf_ne_tmpPathOf dir s s h1
      · rcases List.mem_insert_iff.mp h1 with h2 | h2
        · exact outPathOf_ne_manifest dir s h2
        · exact hmem h2
    · rw [if_neg hw] at hmem'
      rcases List.mem_insert_iff.mp hmem'.1 with h1 | h1
      · exact outPathOf_ne_manifest dir s h1
      · exact hmem h1
  · intro hmem'
    exact (mem_fsRemove.mp hmem').2 rfl

theorem render_failure_atomicity_witness :
    outPathOf "out2" [⟨["rec", "20240101", "11", "00.mp4"], ⟨2024, 1, 1, 11, 0, 0⟩⟩]
        ∉ ([] : List String) ∧
    (ToolBehavior.mk false true).exitOk = false ∧
    ((render_group ⟨false, true⟩
        [⟨["rec", "20240101", "11", "00.mp4"], ⟨2024, 1, 1, 11, 0, 0⟩⟩] "out2" []).ok
        = false ∧
      (render_group ⟨false, true⟩
        [⟨["rec", "20240101", "11", "00.mp4"], ⟨2024, 1, 1, 11, 0, 0⟩⟩] "out2" []).invoked
        = true ∧
      outPathOf "out2" [⟨["rec", "20240101", "11", "00.mp4"], ⟨2024, 1, 1, 11, 0, 0⟩⟩]
        ∉ (render_group ⟨false, true⟩
            [⟨["rec", "20240101", "11", "00.mp4"], ⟨2024, 1, 1, 11, 0, 0⟩⟩] "out2" []).fs ∧
      manifestTmpPath
        ∉ (render_group ⟨false, true⟩
            [⟨["rec", "20240101", "11", "00.mp4"], ⟨2024, 1, 1, 11, 0, 0⟩⟩] "out2" []).fs) :=
  ⟨by decide, rfl,
    render_failure_atomicity ⟨false, true⟩
      [⟨["rec", "20240101", "11", "00.mp4"], ⟨2024, 1, 1, 11, 0, 0⟩⟩] "out2" []
      (by decide) rfl⟩

/-! ## Runs in which every tool invocation succeeds -/

lemma mem_success_fs {p dir : String} {s : List Recording} {fs : List String}
    (hp : p ∈ fs ∨ p = outPathOf dir s) (hman : p ≠ manifestTmpPath)
    (htmp : p ≠ tmpPathOf dir s) :
    p ∈ List.insert (outPathOf dir s)
      (fsRemove (tmpPathOf dir s) (fsRemove manifestTmpPath
        (List.insert (tmpPathOf dir s) (List.insert manifestTmpPath fs)))) := by
  rcases hp with hp | rfl
  · refine List.mem_insert_iff.mpr (Or.inr ?_)
    rw [mem_fsRemove]
    refine ⟨?_, htmp⟩
    rw [mem_fsRemove]
    exact ⟨List.mem_insert_iff.mpr
      (Or.inr (List.mem_insert_iff.mpr (Or.inr hp))), hman⟩
  · exact List.mem_insert_self _ _

lemma runSessions_allOk : ∀ (sessions : List (List Recording)) (env : Nat → ToolBehavior)
    (dir : String) (fs : List String) (n : Nat), (∀ k, (env k).exitOk = true) →
    (runSessions env sessions dir fs n).ok = true ∧
    (∀ s ∈ sessions, outPathOf dir s ∈ (runSessions env sessions dir fs n).fs) ∧
    (∀ p ∈ fs, p ≠ manifestTmpPath → (∀ s', p ≠ tmpPathOf dir s') →
      p ∈ (runSessions env sessions dir fs n).fs)
  | [], env, dir, fs, n, _ => by
    refine ⟨rfl, ?_, ?_⟩
    · intro s hs
      exact absurd hs (List.not_mem_nil s)
    · intro p hp _ _
      exact hp
  | s :: rest, env, dir, fs, n, henv => by
    by_cases hmem : outPathOf dir s ∈ fs
    · simp only [runSessions, render_group_skip (env n) s dir fs hmem]
      simp only [if_true, Bool.false_eq_true, if_false, Nat.add_zero]
      obtain ⟨hok, houts, hpres⟩ := runSessions_allOk rest env dir fs n henv
      refine ⟨hok, ?_, hpres⟩
      intro t ht
      rcases List.mem_cons.mp ht with rfl | ht'
      · exact hpres (outPathOf dir t) hmem (outPathOf_ne_manifest dir t)
          (fun s' => outPathOf_ne_tmpPathOf dir t s')
      · exact houts t ht'
    · simp only [runSessions, render_group_success (env n) s dir fs hmem (henv n)]
      simp only [if_true]
      obtain ⟨hok, houts, hpres⟩ := runSessions_allOk rest env dir
        (List.insert (outPathOf dir s)
          (fsRemove (tmpPathOf dir s) (fsRemove manifestTmpPath
            (List.insert (tmpPathOf dir s) (List.insert manifestTmpPath fs)))))
        (n + 1) henv
      refine ⟨hok, ?_, ?_⟩
      · intro t ht
        rcases List.mem_cons.mp ht with rfl | ht'
        · exact hpres (outPathOf dir t)
            (mem_success_fs (Or.inr rfl) (outPathOf_ne_manifest dir t)
              (outPathOf_ne_tmpPathOf dir t t))
            (outPathOf_ne_manifest dir t)
            (fun s' => outPathOf_ne_tmpPathOf dir t s')
        · exact houts t ht'
      · intro p hp hman htmp
        exact hpres p (mem_success_fs (Or.inl hp) hman (htmp s)) hman htmp

lemma runSessions_all_present : ∀ (sessions : List (List Recording))
    (env : Nat → ToolBehavior) (dir : String) (fs : List String) (n : Nat),
    (∀ s ∈ sessions, outPathOf dir s ∈ fs) →
    runSessions env sessions dir fs n = ⟨fs, n, true⟩
  | [], _, _, _, _, _ => rfl
  | s :: rest, env, dir, fs, n, hall => by
    have hmem : outPathOf dir s ∈ fs := hall s (by simp)
    simp only [runSessions, render_group_skip (env n) s dir fs hmem]
    simpa using runSessions_all_present rest env dir fs n
      (fun t ht => hall t (List.mem_cons_of_mem s ht))

lemma combine_eq_of_locate_error (env : Nat → ToolBehavior) (mp4_paths : List (List String))
    (dir : String) (fs : List String) (p : List String)
    (hloc : locate mp4_paths = .error p) :
    combine env mp4_paths dir fs = .error (p, List.insert dir fs) := by
  unfold combine
  rw [hloc]

lemma combine_eq_of_locate_ok (env : Nat → ToolBehavior) (mp4_paths : List (List String))
    (dir : String) (fs : List String) (recs : List Recording)
    (hloc : locate mp4_paths = .ok recs) :
    combine env mp4_paths dir fs =
      (if recs = [] then .ok ⟨List.insert dir fs, 0, true⟩
       else .ok (runSessions env (sessionsOf recs) dir (List.insert dir fs) 0)) := by
  unfold combine
  rw [hloc]

/-! ## Claim theorems C5 and C9 -/

/-- C5: if a file already exists at a session's final output path, the
Renderer returns immediately - no tool invocation, no filesystem change,
no error; consequently, re-running the pipeline on the result of a fully
successful run performs zero external-tool invocations and leaves the
filesystem unchanged, whatever the second run's tool would have done.
(`dir ≠ manifestTmpPath` reflects that the manifest temp file is a fresh
name in the system temp directory, modelled here by a constant.) -/
theorem pipeline_idempotent (env1 env2 : Nat → ToolBehavior) (b : ToolBehavior)
    (sk : List Recording) (fsk : List String)
    (mp4_paths : List (List String)) (dir : String) (fs : List String) (r1 : RunOut)
    (henv1 : ∀ k, (env1 k).exitOk = true) (hdir : dir ≠ manifestTmpPath)
    (h1 : combine env1 mp4_paths dir fs = .ok r1) :
    (outPathOf dir sk ∈ fsk → render_group b sk dir fsk = ⟨fsk, false, true⟩) ∧
    combine env2 mp4_paths dir r1.fs = .ok ⟨r1.fs, 0, true⟩ := by
  refine ⟨fun hm => render_group_skip b sk dir fsk hm, ?_⟩
  cases hloc : locate mp4_paths with
  | error p =>
    rw [combine_eq_of_locate_error env1 mp4_paths dir fs p hloc] at h1
    exact absurd h1 (by simp)
  | ok recs =>
    rw [combine_eq_of_locate_ok env1 mp4_paths dir fs recs hloc] at h1
    rw [combine_eq_of_locate_ok env2 mp4_paths dir r1.fs recs hloc]
    by_cases hre : recs = []
    · rw [if_pos hre] at h1
      rw [if_pos hre]
      injection h1 with h1'
      rw [← h1']
      simp only [List.insert_of_mem (List.mem_insert_self dir fs)]
    · rw [if_neg hre] at h1
      rw [if_neg hre]
      injection h1 with h1'
      obtain ⟨_, houts, hpres⟩ :=
        runSessions_allOk (sessionsOf recs) env1 dir (List.insert dir fs) 0 henv1
      have hdirmem : dir ∈ r1.fs := by
        rw [← h1']
        exact hpres dir (List.mem_insert_self dir fs) hdir
          (fun s' => dir_ne_tmpPathOf dir s')
      have hpresent : ∀ s ∈ sessionsOf recs, outPathOf dir s ∈ r1.fs := by
        intro s hs
        rw [← h1']
        exact houts s hs
      rw [List.insert_of_mem hdirmem,
        runSessions_all_present (sessionsOf recs) env2 dir r1.fs 0 hpresent]

theorem pipeline_idempotent_witness :
    (outPathOf "out" [⟨["r", "20240101", "10", "00.mp4"], ⟨2024, 1, 1, 10, 0, 0⟩⟩]
        ∈ ["out/20240101_1000_to_20240101_1000.mkv", "out"] →
      render_group ⟨true, true⟩
        [⟨["r", "20240101", "10", "00.mp4"], ⟨2024, 1, 1, 10, 0, 0⟩⟩] "out"
        ["out/20240101_1000_to_20240101_1000.mkv", "out"]
        = ⟨["out/20240101_1000_to_20240101_1000.mkv", "out"], false, true⟩) ∧
    combine allOkEnv [["r", "20240101", "10", "00.mp4"]] "out"
      ["out/20240101_1000_to_20240101_1000.mkv", "out"]
      = .ok ⟨["out/20240101_1000_to_20240101_1000.mkv", "out"], 0, true⟩ :=
  pipeline_idempotent allOkEnv allOkEnv ⟨true, true⟩
    [⟨["r", "20240101", "10", "00.mp4"], ⟨2024, 1, 1, 10, 0, 0⟩⟩]
    ["out/20240101_1000_to_20240101_1000.mkv", "out"]
    [["r", "20240101", "10", "00.mp4"]] "out" []
    ⟨["out/20240101_1000_to_20240101_1000.mkv", "out"], 1, true⟩
    (fun _ => rfl) (by decide) (by decide)

/-- C9: with zero fragments discovered the pipeline completes successfully
(no error), performs zero external-tool invocations, and creates no output
file - the only filesystem change is the output-directory creation - and
the session list of an empty input is empty, not an error. -/
theorem combine_empty_input (env : Nat → ToolBehavior) (dir : String) (fs : List String) :
    combine env [] dir fs = .ok ⟨List.insert dir fs, 0, true⟩ ∧
    sessionsOf [] = [] :=
  ⟨rfl, rfl⟩

/-! ## Locator lemmas (C4 and C8) -/

lemma datetimeMk_second (y mo d h mi : Int) (t : Datetime)
    (hmk : datetimeMk y mo d h mi = some t) : t.second = 0 := by
  unfold datetimeMk at hmk
  split at hmk
  · injection hmk with h'
    rw [← h']
  · exact absurd hmk (by simp)

lemma parseTimestamp_second (gp par leaf : String) (t : Datetime)
    (h : parseTimestamp gp par leaf = some t) : t.second = 0 := by
  simp only [parseTimestamp, bind, Option.bind_eq_some] at h
  obtain ⟨y, _, mo, _, d, _, hh, _, mi, _, hmk⟩ := h
  exact datetimeMk_second y mo d hh mi t hmk

lemma partsTimestamp_second (p : List String) (t : Datetime)
    (h : partsTimestamp p = some t) : t.second = 0 := by
  unfold partsTimestamp at h
  split at h
  · exact parseTimestamp_second _ _ _ t h
  · exact absurd h (by simp)

/-- A successful locate visits every path: the produced recordings carry
exactly the discovered paths, in order, each with the timestamp parsed
from its own path. -/
lemma locate_ok_spec : ∀ (mp4_paths : List (List String)) (rs : List Recording),
    locate mp4_paths = .ok rs →
    rs.map Recording.path = mp4_paths ∧
    ∀ r ∈ rs, partsTimestamp r.path = some r.timestamp
  | [], rs, h => by
    simp only [locate, Except.ok.injEq] at h
    subst h
    exact ⟨rfl, fun r hr => absurd hr (List.not_mem_nil r)⟩
  | p :: rest, rs, h => by
    simp only [locate] at h
    cases hq : partsTimestamp p with
    | none => rw [hq] at h; exact absurd h (by simp)
    | some t =>
      rw [hq] at h
      cases hrest : locate rest with
      | error q => rw [hrest] at h; exact absurd h (by simp)
      | ok rs' =>
        rw [hrest] at h
        simp only [Except.ok.injEq] at h
        subst h
        obtain ⟨hmap, hts⟩ := locate_ok_spec rest rs' hrest
        refine ⟨by simp [hmap], ?_⟩
        intro r hr
        rcases List.mem_cons.mp hr with rfl | hr'
        · exact hq
        · exact hts r hr'

/-! ## Claim theorem C4 (with counterexample) -/

/-- C4 counterexample: a fragment path whose parent (hour) component is a
single digit - violating the expected two-digit field width - is accepted
without any error: the Locator produces a timestamp for it, because
`int()` never checks field widths. -/
theorem locator_width_counterexample :
    ¬ specExpectedShape "20240101" "5" "07.mp4" ∧
    locate [["rec", "20240101", "5", "07.mp4"]] =
      .ok [⟨["rec", "20240101", "5", "07.mp4"], ⟨2024, 1, 1, 5, 7, 0⟩⟩] := by
  constructor
  · decide
  · decide

/-- C4 (amended): if any of the three trailing components of a discovered
path fails to parse as a Python integer, or the parsed values do not form
a valid date-time, the whole run fails with an error identifying a
malformed path, and no path is silently skipped; field widths, however,
are not enforced (a one-digit hour directory parses and yields the
corresponding timestamp rather than an error). -/
theorem locator_fails_on_malformed (mp4_paths : List (List String)) (p : List String)
    (hp : p ∈ mp4_paths) (hbad : partsTimestamp p = none) :
    ∃ q, q ∈ mp4_paths ∧ partsTimestamp q = none ∧ locate mp4_paths = .error q := by
  induction mp4_paths with
  | nil => exact absurd hp (List.not_mem_nil p)
  | cons a rest ih =>
    cases hq : partsTimestamp a with
    | none => exact ⟨a, by simp, hq, by simp [locate, hq]⟩
    | some t =>
      have hp' : p ∈ rest := by
        rcases List.mem_cons.mp hp with rfl | h
        · rw [hq] at hbad
          exact absurd hbad (by simp)
        · exact h
      obtain ⟨q, hq1, hq2, hq3⟩ := ih hp'
      exact ⟨q, List.mem_cons_of_mem a hq1, hq2, by simp [locate, hq, hq3]⟩

theorem locator_fails_on_malformed_witness :
    ["rec", "20240101", "xx", "07.mp4"] ∈
      [["rec", "20240101", "10", "00.mp4"], ["rec", "20240101", "xx", "07.mp4"]] ∧
    partsTimestamp ["rec", "20240101", "xx", "07.mp4"] = none ∧
    ∃ q, q ∈ [["rec", "20240101", "10", "00.mp4"], ["rec", "20240101", "xx", "07.mp4"]] ∧
      partsTimestamp q = none ∧
      locate [["rec", "20240101", "10", "00.mp4"], ["rec", "20240101", "xx", "07.mp4"]]
        = .error q :=
  ⟨by decide, by decide,
    locator_fails_on_malformed
      [["rec", "20240101", "10", "00.mp4"], ["rec", "20240101", "xx", "07.mp4"]]
      ["rec", "20240101", "xx", "07.mp4"] (by decide) (by decide)⟩

lemma headD_default_eq_head (l : List Recording) (h : l ≠ []) :
    l.headD default = l.head h := by
  cases l with
  | nil => exact absurd rfl h
  | cons a t => rfl

lemma getLastD_default_eq_getLast (l : List Recording) (h : l ≠ []) :
    l.getLastD default = l.getLast h := by
  rw [List.getLastD_eq_getLast?, List.getLast?_eq_getLast l h]
  rfl

/-! ## Claim theorem C6 (with counterexample) -/

/-- C6 counterexample: the session spanning 10:00-10:02 yields the file
name `20240101_1000_to_20240101_1002.mkv`; the span string
`_1000_to_1002` claimed for it does not occur in that name (the end
timestamp repeats the full date between `_to_` and the end minutes). -/
theorem output_name_span_counterexample :
    outputName exampleSessionA = "20240101_1000_to_20240101_1002.mkv" ∧
    ¬ List.IsInfix "_1000_to_1002".data "20240101_1000_to_20240101_1002.mkv".data := by
  constructor
  · decide
  · decide

/-- C6 (amended): for every non-empty session, the output name is the
first recording's timestamp and the last recording's timestamp, each
formatted as the sortable compact `YYYYMMDD_HHMM` string, joined by
`_to_`, with the fixed `.mkv` container extension; concretely the example
sessions {10:00,10:01,10:02} and {10:05,10:06} yield
`20240101_1000_to_20240101_1002.mkv` and
`20240101_1005_to_20240101_1006.mkv` - each minute span appears, but
separated by the end date rather than as a contiguous `_1000_to_1002`. -/
theorem output_name_span (s : List Recording) (hs : s ≠ []) :
    outputName s =
      strfName ((s.head hs).timestamp) ++ "_to_" ++
        strfName ((s.getLast hs).timestamp) ++ ".mkv" ∧
    outputName exampleSessionB = "20240101_1005_to_20240101_1006.mkv" := by
  constructor
  · unfold outputName sessionStart sessionEnd
    rw [headD_default_eq_head s hs, getLastD_default_eq_getLast s hs]
  · decide

theorem output_name_span_witness :
    exampleSessionA ≠ [] ∧
    (outputName exampleSessionA =
        strfName ((exampleSessionA.head (by decide)).timestamp) ++ "_to_" ++
          strfName ((exampleSessionA.getLast (by decide)).timestamp) ++ ".mkv" ∧
      outputName exampleSessionB = "20240101_1005_to_20240101_1006.mkv") :=
  ⟨by decide, output_name_span exampleSessionA (by decide)⟩

/-! ## Output names contain no path separator -/

lemma dcharAux_ne_slash (n : Nat) : dcharAux n ≠ '/' := by
  unfold dcharAux
  split <;> decide

lemma dchar_ne_slash (d : Nat) : dchar d ≠ '/' := dcharAux_ne_slash (d % 10)

lemma pad2_no_slash (n : Nat) : '/' ∉ (pad2 n).data := by
  intro h
  have h' : '/' ∈ [dchar (n / 10), dchar n] := h
  rcases List.mem_cons.mp h' with e | h''
  · exact dchar_ne_slash (n / 10) e.symm
  · rcases List.mem_cons.mp h'' with e | h3
    · exact dchar_ne_slash n e.symm
    · exact absurd h3 (List.not_mem_nil _)

lemma pad4_no_slash (n : Nat) : '/' ∉ (pad4 n).data := by
  intro h
  have h' : '/' ∈ [dchar (n / 1000), dchar (n / 100), dchar (n / 10), dchar n] := h
  rcases List.mem_cons.mp h' with e | h'
  · exact dchar_ne_slash (n / 1000) e.symm
  rcases List.mem_cons.mp h' with e | h'
  · exact dchar_ne_slash (n / 100) e.symm
  rcases List.mem_cons.mp h' with e | h'
  · exact dchar_ne_slash (n / 10) e.symm
  rcases List.mem_cons.mp h' with e | h'
  · exact dchar_ne_slash n e.symm
  · exact absurd h' (List.not_mem_nil _)

lemma strfName_no_slash (t : Datetime) : '/' ∉ (strfName t).data := by
  intro h
  simp only [strfName, String.data_append, List.mem_append] at h
  rcases h with ((((h | h) | h) | h) | h) | h
  · exact pad4_no_slash t.year h
  · exact pad2_no_slash t.month h
  · exact pad2_no_slash t.day h
  · exact absurd h (by decide)
  · exact pad2_no_slash t.hour h
  · exact pad2_no_slash t.minute h

lemma outputName_no_slash (s : List Recording) : '/' ∉ (outputName s).data := by
  intro h
  simp only [outputName, String.data_append, List.mem_append] at h
  rcases h with ((h | h) | h) | h
  · exact strfName_no_slash _ h
  · exact absurd h (by decide)
  · exact strfName_no_slash _ h
  · exact absurd h (by decide)

lemma tmpOutputName_no_slash (s : List Recording) : '/' ∉ (tmpOutputName s).data := by
  intro h
  simp only [tmpOutputName, String.data_append, List.mem_append] at h
  rcases h with ((h | h) | h) | h
  · exact strfName_no_slash _ h
  · exact absurd h (by decide)
  · exact strfName_no_slash _ h
  · exact absurd h (by decide)

/-- If `dir` does not lie under `recordDir` then neither does
`dir ++ "/" ++ name`, provided `name` contains no path separator. -/
lemma not_prefix_of_joined (recordDir dir name : String)
    (hdisj : ¬ (recordDir.data ++ ['/']) <+: (dir.data ++ ['/']))
    (hns : '/' ∉ name.data) :
    ¬ (recordDir.data ++ ['/']) <+: (dir ++ "/" ++ name).data := by
  intro h
  have hslash : ("/").data = ['/'] := rfl
  rw [String.data_append, String.data_append, hslash] at h
  have hB : (dir.data ++ ['/']) <+: (dir.data ++ ['/'] ++ name.data) :=
    List.prefix_append _ _
  rcases List.prefix_or_prefix_of_prefix h hB with hAB | hBA
  · exact hdisj hAB
  · rcases hBA with ⟨C, hC⟩
    cases hCe : C with
    | nil =>
      apply hdisj
      rw [← hC, hCe, List.append_nil]
    | cons c cs =>
      subst hCe
      apply hns
      have hlast : ((dir.data ++ ['/']) ++ (c :: cs)).getLast? = some '/' := by
        rw [hC]
        exact List.getLast?_concat _
      rw [List.getLast?_append] at hlast
      rw [List.getLast?_eq_getLast (c :: cs) (List.cons_ne_nil c cs)] at hlast
      have hg : (c :: cs).getLast (List.cons_ne_nil c cs) = '/' := by
        injection hlast
      obtain ⟨t, ht⟩ := h
      rw [← hC, List.append_assoc] at ht
      have hCt : (c :: cs) ++ t = name.data := List.append_cancel_left ht
      rw [← hCt]
      apply List.mem_append.mpr
      left
      rw [← hg]
      exact List.getLast_mem (List.cons_ne_nil c cs)

/-! ## Filesystem frame of the Renderer and pipeline -/

lemma render_group_fs_sub (b : ToolBehavior) (s : List Recording) (dir : String)
    (fs : List String) :
    (∀ p ∈ (render_group b s dir fs).fs,
      p ∈ fs ∨ p = outPathOf dir s ∨ p = tmpPathOf dir s) ∧
    (∀ p ∈ fs, p ∉ (render_group b s dir fs).fs →
      p = manifestTmpPath ∨ p = tmpPathOf dir s) := by
  by_cases hmem : outPathOf dir s ∈ fs
  · rw [render_group_skip b s dir fs hmem]
    exact ⟨fun p hp => Or.inl hp, fun p hp hnp => absurd hp hnp⟩
  · by_cases hex : b.exitOk = true
    · rw [render_group_success b s dir fs hmem hex]
      constructor
      · intro p hp
        rcases List.mem_insert_iff.mp hp with rfl | hp'
        · exact Or.inr (Or.inl rfl)
        · have h1 := (mem_fsRemove.mp hp').1
          have h2 := (mem_fsRemove.mp h1).1
          rcases List.mem_insert_iff.mp h2 with rfl | h3
          · exact Or.inr (Or.inr rfl)
          · rcases List.mem_insert_iff.mp h3 with rfl | h4
            · exact absurd rfl (mem_fsRemove.mp h1).2
            · exact Or.inl h4
      · intro p hp hnp
        by_cases hpt : p = tmpPathOf dir s
        · exact Or.inr hpt
        · by_cases hpm : p = manifestTmpPath
          · exact Or.inl hpm
          · exfalso
            apply hnp
            refine List.mem_insert_iff.mpr (Or.inr ?_)
            rw [mem_fsRemove]
            refine ⟨?_, hpt⟩
            rw [mem_fsRemove]
            exact ⟨List.mem_insert_iff.mpr
              (Or.inr (List.mem_insert_iff.mpr (Or.inr hp))), hpm⟩
    · have hex' : b.exitOk = false := by simpa using hex
      rw [render_group_fail b s dir fs hmem hex']
      constructor
      · intro p hp
        have h1 := (mem_fsRemove.mp hp).1
        by_cases hw : b.wroteTmp = true
        · rw [if_pos hw] at h1
          rcases List.mem_insert_iff.mp h1 with rfl | h2
          · exact Or.inr (Or.inr rfl)
          · rcases List.mem_insert_iff.mp h2 with rfl | h3
            · exact absurd rfl (mem_fsRemove.mp hp).2
            · exact Or.inl h3
        · rw [if_neg hw] at h1
          rcases List.mem_insert_iff.mp h1 with rfl | h2
          · exact absurd rfl (mem_fsRemove.mp hp).2
          · exact Or.inl h2
      · intro p hp hnp
        by_cases hpm : p = manifestTmpPath
        · exact Or.inl hpm
        · exfalso
          apply hnp
          rw [mem_fsRemove]
          refine ⟨?_, hpm⟩
          by_cases hw : b.wroteTmp = true
          · rw [if_pos hw]
            exact List.mem_insert_iff.mpr
              (Or.inr (List.mem_insert_iff.mpr (Or.inr hp)))
          · rw [if_neg hw]
            exact List.mem_insert_iff.mpr (Or.inr hp)

lemma runSessions_fs_sub : ∀ (sessions : List (List Recording)) (env : Nat → ToolBehavior)
    (dir : String) (fs : List String) (n : Nat),
    (∀ p ∈ (runSessions env sessions dir fs n).fs,
      p ∈ fs ∨ ∃ s, s ∈ sessions ∧ (p = outPathOf dir s ∨ p = tmpPathOf dir s)) ∧
    (∀ p ∈ fs, p ∉ (runSessions env sessions dir fs n).fs →
      p = manifestTmpPath ∨ ∃ s, s ∈ sessions ∧ p = tmpPathOf dir s)
  | [], env, dir, fs, n =>
    ⟨fun p hp => Or.inl hp, fun p hp hnp => absurd hp hnp⟩
  | s :: rest, env, dir, fs, n => by
    obtain ⟨hrg1, hrg2⟩ := render_group_fs_sub (env n) s dir fs
    simp only [runSessions]
    by_cases hok : (render_group (env n) s dir fs).ok = true
    · rw [if_pos hok]
      obtain ⟨ih1, ih2⟩ := runSessions_fs_sub rest env dir
        (render_group (env n) s dir fs).fs
        (n + if (render_group (env n) s dir fs).invoked then 1 else 0)
      constructor
      · intro p hp
        rcases ih1 p hp with hp' | ⟨t, ht, hpt⟩
        · rcases hrg1 p hp' with h | h
          · exact Or.inl h
          · exact Or.inr ⟨s, by simp, h⟩
        · exact Or.inr ⟨t, List.mem_cons_of_mem s ht, hpt⟩
      · intro p hp hnp
        by_cases hpr : p ∈ (render_group (env n) s dir fs).fs
        · rcases ih2 p hpr hnp with h | ⟨t, ht, hpt⟩
          · exact Or.inl h
          · exact Or.inr ⟨t, List.mem_cons_of_mem s ht, hpt⟩
        · rcases hrg2 p hp hpr with h | h
          · exact Or.inl h
          · exact Or.inr ⟨s, by simp, h⟩
    · rw [if_neg hok]
      constructor
      · intro p hp
        rcases hrg1 p hp with h | h
        · exact Or.inl h
        · exact Or.inr ⟨s, by simp, h⟩
      · intro p hp hnp
        rcases hrg2 p hp hnp with h | h
        · exact Or.inl h
        · exact Or.inr ⟨s, by simp, h⟩

/-! ## Claim theorem C10 (with counterexample) -/

/-- C10 counterexample: when the output directory is placed inside the
recordings directory, a successful run creates the combined output file
(and the output directory entry itself) under the recordings directory,
so the pipeline does not in general leave the input tree untouched. -/
theorem combine_writes_under_input_counterexample :
    combine allOkEnv [["rec", "20240101", "10", "00.mp4"]] "rec/out" ["rec"]
      = .ok ⟨["rec/out/20240101_1000_to_20240101_1000.mkv", "rec/out", "rec"], 1, true⟩ ∧
     List.IsPrefix "rec/".data "rec/out/20240101_1000_to_20240101_1000.mkv".data ∧
    "rec/out/20240101_1000_to_20240101_1000.mkv" ∉ (["rec"] : List String) := by
  refine ⟨by decide, by decide, by decide⟩

/-- C10 (amended): for every run that returns (normally or aborted at a
failed render), provided the output directory does not lie under the
recordings directory, the pipeline (i) creates at most the output
directory entry, the sessions' final output files and the sessions'
temporary outputs - the manifest temp file, which lives in the system
temp directory, is created and removed within each render and never
survives; (ii) deletes at most the manifest temp file and session
temporary outputs; and (iii) creates nothing under the recordings
directory.  Recordings themselves (path and timestamp) are immutable by
construction. -/
theorem combine_frame (env : Nat → ToolBehavior) (mp4_paths : List (List String))
    (recordDir dir : String) (fs : List String) (recs : List Recording) (r : RunOut)
    (hloc : locate mp4_paths = .ok recs)
    (hcomb : combine env mp4_paths dir fs = .ok r)
    (hdisj : ¬ (recordDir.data ++ ['/']) <+: (dir.data ++ ['/'])) :
    (∀ p ∈ r.fs, p ∈ fs ∨ p = dir ∨
      ∃ s, s ∈ sessionsOf recs ∧ (p = outPathOf dir s ∨ p = tmpPathOf dir s)) ∧
    (∀ p ∈ fs, p ∉ r.fs →
      p = manifestTmpPath ∨ ∃ s, s ∈ sessionsOf recs ∧ p = tmpPathOf dir s) ∧
    (∀ p ∈ r.fs, p ∉ fs → ¬ (recordDir.data ++ ['/']) <+: p.data) := by
  have hdirpre : ¬ (recordDir.data ++ ['/']) <+: dir.data := by
    intro hpre
    exact hdisj (hpre.trans (List.prefix_append _ _))
  rw [combine_eq_of_locate_ok env mp4_paths dir fs recs hloc] at hcomb
  by_cases hre : recs = []
  · rw [if_pos hre] at hcomb
    injection hcomb with hr
    subst hr
    refine ⟨?_, ?_, ?_⟩
    · intro p hp
      rcases List.mem_insert_iff.mp hp with rfl | hp'
      · exact Or.inr (Or.inl rfl)
      · exact Or.inl hp'
    · intro p hp hnp
      exact absurd (List.mem_insert_iff.mpr (Or.inr hp)) hnp
    · intro p hp hnfs
      rcases List.mem_insert_iff.mp hp with rfl | hp'
      · exact hdirpre
      · exact absurd hp' hnfs
  · rw [if_neg hre] at hcomb
    injection hcomb with hr
    subst hr
    obtain ⟨hsub1, hsub2⟩ :=
      runSessions_fs_sub (sessionsOf recs) env dir (List.insert dir fs) 0
    have hcreate : ∀ p ∈ (runSessions env (sessionsOf recs) dir (List.insert dir fs) 0).fs,
        p ∈ fs ∨ p = dir ∨
        ∃ s, s ∈ sessionsOf recs ∧ (p = outPathOf dir s ∨ p = tmpPathOf dir s) := by
      intro p hp
      rcases hsub1 p hp with hp' | ⟨s, hsm, hps⟩
      · rcases List.mem_insert_iff.mp hp' with rfl | hp''
        · exact Or.inr (Or.inl rfl)
        · exact Or.inl hp''
      · exact Or.inr (Or.inr ⟨s, hsm, hps⟩)
    refine ⟨hcreate, ?_, ?_⟩
    · intro p hp hnp
      rcases hsub2 p (List.mem_insert_iff.mpr (Or.inr hp)) hnp with h | h
      · exact Or.inl h
      · exact Or.inr h
    · intro p hp hnfs
      rcases hcreate p hp with h | h | ⟨s, _, h | h⟩
      · exact absurd h hnfs
      · subst h
        exact hdirpre
      · subst h
        exact not_prefix_of_joined recordDir dir (outputName s) hdisj
          (outputName_no_slash s)
      · subst h
        exact not_prefix_of_joined recordDir dir (tmpOutputName s) hdisj
          (tmpOutputName_no_slash s)

theorem combine_frame_witness :
    locate [["rec", "20240101", "10", "00.mp4"]]
      = .ok [⟨["rec", "20240101", "10", "00.mp4"], ⟨2024, 1, 1, 10, 0, 0⟩⟩] ∧
    combine allOkEnv [["rec", "20240101", "10", "00.mp4"]] "out" ["rec"]
      = .ok ⟨["out/20240101_1000_to_20240101_1000.mkv", "out", "rec"], 1, true⟩ ∧
    (¬ ("rec".data ++ ['/']) <+: ("out".data ++ ['/'])) ∧
    ((∀ p ∈ (⟨["out/20240101_1000_to_20240101_1000.mkv", "out", "rec"], 1, true⟩ : RunOut).fs,
        p ∈ (["rec"] : List String) ∨ p = "out" ∨
        ∃ s, s ∈ sessionsOf [⟨["rec", "20240101", "10", "00.mp4"], ⟨2024, 1, 1, 10, 0, 0⟩⟩] ∧
          (p = outPathOf "out" s ∨ p = tmpPathOf "out" s)) ∧
      (∀ p ∈ (["rec"] : List String),
        p ∉ (⟨["out/20240101_1000_to_20240101_1000.mkv", "out", "rec"], 1, true⟩ : RunOut).fs →
        p = manifestTmpPath ∨
        ∃ s, s ∈ sessionsOf [⟨["rec", "20240101", "10", "00.mp4"], ⟨2024, 1, 1, 10, 0, 0⟩⟩] ∧
          p = tmpPathOf "out" s) ∧
      (∀ p ∈ (⟨["out/20240101_1000_to_20240101_1000.mkv", "out", "rec"], 1, true⟩ : RunOut).fs,
        p ∉ (["rec"] : List String) → ¬ ("rec".data ++ ['/']) <+: p.data)) :=
  ⟨by decide, by decide, by decide,
    combine_frame allOkEnv [["rec", "20240101", "10", "00.mp4"]] "rec" "out" ["rec"]
      [⟨["rec", "20240101", "10", "00.mp4"], ⟨2024, 1, 1, 10, 0, 0⟩⟩]
      ⟨["out/20240101_1000_to_20240101_1000.mkv", "out", "rec"], 1, true⟩
      (by decide) (by decide) (by decide)⟩

/-! ## Manifest lemmas and claim theorem C7 -/

lemma splitNl_ne_nil : ∀ cs : List Char, splitNl cs ≠ []
  | [] => by simp [splitNl]
  | c :: cs => by
    cases h : splitNl cs with
    | nil => simp [splitNl, h]
    | cons hd tl => by_cases hc : c = '\n' <;> simp [splitNl, h, hc]

lemma splitNl_no_newline : ∀ cs : List Char, '\n' ∉ cs → splitNl cs = [cs]
  | [], _ => rfl
  | c :: cs, h => by
    have hc : c ≠ '\n' := fun e => h (by rw [e]; exact List.mem_cons_self _ _)
    have hrec := splitNl_no_newline cs (fun m => h (List.mem_cons_of_mem c m))
    simp [splitNl, hrec, hc]

lemma splitNl_append_newline : ∀ (l1 l2 : List Char), '\n' ∉ l1 →
    splitNl (l1 ++ '\n' :: l2) = l1 :: splitNl l2
  | [], l2, _ => by
    cases h : splitNl l2 with
    | nil => exact absurd h (splitNl_ne_nil l2)
    | cons hd tl => simp [splitNl, h]
  | c :: l1, l2, hnl => by
    have hc : c ≠ '\n' := fun e => hnl (by rw [e]; exact List.mem_cons_self _ _)
    have hrec := splitNl_append_newline l1 l2 (fun m => hnl (List.mem_cons_of_mem c m))
    simp [splitNl, hrec, hc]

lemma joinNl_data_cons (l l2 : String) (ls : List String) :
    (joinNl (l :: l2 :: ls)).data = l.data ++ '\n' :: (joinNl (l2 :: ls)).data := by
  show (l ++ "\n" ++ joinNl (l2 :: ls)).data = _
  rw [String.data_append, String.data_append]
  simp

lemma splitNl_joinNl : ∀ (entries : List String), entries ≠ [] →
    (∀ e ∈ entries, '\n' ∉ e.data) →
    splitNl (joinNl entries).data = entries.map String.data
  | [], h, _ => absurd rfl h
  | [e], _, hnl => by
    show splitNl e.data = [e.data]
    exact splitNl_no_newline e.data (hnl e (by simp))
  | e :: e2 :: es, _, hnl => by
    rw [joinNl_data_cons e e2 es]
    rw [splitNl_append_newline e.data ((joinNl (e2 :: es)).data) (hnl e (by simp))]
    rw [splitNl_joinNl (e2 :: es) (by simp) (fun x hx => hnl x (List.mem_cons_of_mem e hx))]
    rfl

/-- C7: the manifest handed to the external tool has exactly one line per
recording of the session, in session order, each line quoting the
recording's resolved (absolute) path in the tool's `file '...'` concat
format; and the manifest temporary file is cleaned up on every exit path
of the renderer, including failure. -/
theorem manifest_lines_and_cleanup (res : List String → String) (s : List Recording)
    (b : ToolBehavior) (dir : String) (fs : List String)
    (hs : s ≠ []) (hnl : ∀ r ∈ s, '\n' ∉ (res r.path).data)
    (hman : manifestTmpPath ∉ fs) :
    splitNl (manifestContent res s).data
      = s.map (fun r => ("file '" ++ res r.path ++ "'").data) ∧
    manifestTmpPath ∉ (render_group b s dir fs).fs := by
  constructor
  · have hent : ∀ e ∈ s.map (manifestEntry res), '\n' ∉ e.data := by
      intro e he
      simp only [List.mem_map] at he
      obtain ⟨r, hr, rfl⟩ := he
      intro hmem
      simp only [manifestEntry, String.data_append, List.mem_append] at hmem
      rcases hmem with (h | h) | h
      · exact absurd h (by decide)
      · exact hnl r hr h
      · exact absurd h (by decide)
    have h1 := splitNl_joinNl (s.map (manifestEntry res)) (by simpa using hs) hent
    unfold manifestContent
    rw [h1, List.map_map]
    rfl
  · by_cases hmem : outPathOf dir s ∈ fs
    · rw [render_group_skip b s dir fs hmem]
      exact hman
    · by_cases hex : b.exitOk = true
      · rw [render_group_success b s dir fs hmem hex]
        intro hm
        rcases List.mem_insert_iff.mp hm with h | h
        · exact outPathOf_ne_manifest dir s h.symm
        · exact (mem_fsRemove.mp (mem_fsRemove.mp h).1).2 rfl
      · rw [render_group_fail b s dir fs hmem (by simpa using hex)]
        intro hm
        exact (mem_fsRemove.mp hm).2 rfl

theorem manifest_lines_and_cleanup_witness :
    (([⟨["r", "20240101", "10", "00.mp4"], ⟨2024, 1, 1, 10, 0, 0⟩⟩] : List Recording) ≠ []) ∧
    (∀ r ∈ ([⟨["r", "20240101", "10", "00.mp4"], ⟨2024, 1, 1, 10, 0, 0⟩⟩] : List Recording),
      '\n' ∉ ((fun (_ : List String) => "/abs/00.mp4") r.path).data) ∧
    manifestTmpPath ∉ (["pre"] : List String) ∧
    (splitNl (manifestContent (fun _ => "/abs/00.mp4")
        [⟨["r", "20240101", "10", "00.mp4"], ⟨2024, 1, 1, 10, 0, 0⟩⟩]).data
      = [(⟨["r", "20240101", "10", "00.mp4"], ⟨2024, 1, 1, 10, 0, 0⟩⟩ : Recording)].map
          (fun r => ("file '" ++ (fun (_ : List String) => "/abs/00.mp4") r.path ++ "'").data) ∧
     manifestTmpPath ∉ (render_group ⟨true, true⟩
        [⟨["r", "20240101", "10", "00.mp4"], ⟨2024, 1, 1, 10, 0, 0⟩⟩] "o" ["pre"]).fs) :=
  ⟨by decide, by decide, by decide,
    manifest_lines_and_cleanup (fun _ => "/abs/00.mp4")
      [⟨["r", "20240101", "10", "00.mp4"], ⟨2024, 1, 1, 10, 0, 0⟩⟩]
      ⟨true, true⟩ "o" ["pre"] (by decide) (by decide) (by decide)⟩

/-! ## Claim theorem C8 -/

/-- C8: the derived timestamp is a pure, deterministic function of the
path alone, at minute resolution: a successful locate gives every
recording the timestamp parsed from its own path (so two recordings with
the same path always get the same timestamp, and re-running on the same
tree yields identical timestamps), and the seconds field is always
zero. -/
theorem locator_timestamp_pure (mp4_paths : List (List String)) (rs : List Recording)
    (h : locate mp4_paths = .ok rs) :
    (∀ r ∈ rs, partsTimestamp r.path = some r.timestamp) ∧
    (∀ r1 r2, r1 ∈ rs → r2 ∈ rs → r1.path = r2.path → r1.timestamp = r2.timestamp) ∧
    (∀ r ∈ rs, r.timestamp.second = 0) := by
  obtain ⟨_, hts⟩ := locate_ok_spec mp4_paths rs h
  refine ⟨hts, ?_, ?_⟩
  · intro r1 r2 h1 h2 hpath
    have e1 := hts r1 h1
    have e2 := hts r2 h2
    rw [hpath] at e1
    rw [e1] at e2
    injection e2
  · intro r hr
    exact partsTimestamp_second r.path r.timestamp (hts r hr)

theorem locator_timestamp_pure_witness :
    locate [["rec", "20240101", "10", "00.mp4"], ["rec", "20240101", "10", "00.mp4"]]
      = .ok [⟨["rec", "20240101", "10", "00.mp4"], ⟨2024, 1, 1, 10, 0, 0⟩⟩,
             ⟨["rec", "20240101", "10", "00.mp4"], ⟨2024, 1, 1, 10, 0, 0⟩⟩] ∧
    ((∀ r ∈ [⟨["rec", "20240101", "10", "00.mp4"], ⟨2024, 1, 1, 10, 0, 0⟩⟩,
             (⟨["rec", "20240101", "10", "00.mp4"], ⟨2024, 1, 1, 10, 0, 0⟩⟩ : Recording)],
        partsTimestamp r.path = some r.timestamp) ∧
      (∀ r1 r2, r1 ∈ [⟨["rec", "20240101", "10", "00.mp4"], ⟨2024, 1, 1, 10, 0, 0⟩⟩,
             (⟨["rec", "20240101", "10", "00.mp4"], ⟨2024, 1, 1, 10, 0, 0⟩⟩ : Recording)] →
        r2 ∈ [⟨["rec", "20240101", "10", "00.mp4"], ⟨2024, 1, 1, 10, 0, 0⟩⟩,
             (⟨["rec", "20240101", "10", "00.mp4"], ⟨2024, 1, 1, 10, 0, 0⟩⟩ : Recording)] →
        r1.path = r2.path → r1.timestamp = r2.timestamp) ∧
      (∀ r ∈ [⟨["rec", "20240101", "10", "00.mp4"], ⟨2024, 1, 1, 10, 0, 0⟩⟩,
             (⟨["rec", "20240101", "10", "00.mp4"], ⟨2024, 1, 1, 10, 0, 0⟩⟩ : Recording)],
        r.timestamp.second = 0)) :=
  ⟨by decide,
    locator_timestamp_pure
      [["rec", "20240101", "10", "00.mp4"], ["rec", "20240101", "10", "00.mp4"]]
      [⟨["rec", "20240101", "10", "00.mp4"], ⟨2024, 1, 1, 10, 0, 0⟩⟩,
       ⟨["rec", "20240101", "10", "00.mp4"], ⟨2024, 1, 1, 10, 0, 0⟩⟩] (by decide)⟩
